import Mathlib

/-!
Verification development for the `dpos` consensus engine of the goola
repository (`consensus/dpos/consensus.go`).

The Go code is shallowly embedded: machine integers (`uint64`, `int64`)
become `Nat`/`Int` with explicit reductions modulo `2^64` exactly where the
Go code converts or may overflow; `*big.Int` fields become `Int` (or `Nat`
for block numbers, which are constructed non-negative); fallible functions
return `Option VErr` where `none` is Go's `nil` error.  The wall clock read
by `time.Now()` is passed in as an explicit `now : Int` (Unix seconds).
-/

namespace Goola

/-- `2^64`, the modulus of Go's `uint64` arithmetic. -/
def U64MOD : Nat := 2 ^ 64

/-- Go's conversion `int64(x)` applied to a `uint64` value represented as a
`Nat`: reinterpret the low 64 bits as a two's-complement signed value. -/
def toInt64 (n : Nat) : Int :=
  if n % U64MOD < 2 ^ 63 then ((n % U64MOD : Nat) : Int)
  else ((n % U64MOD : Nat) : Int) - (2 ^ 64 : Int)

/-- Two's-complement wrap-around of an `Int` into the `int64` range,
modelling Go's (well-defined) signed overflow on `int64` operations. -/
def wrap64 (z : Int) : Int := (z + 2 ^ 63) % (2 ^ 64 : Int) - 2 ^ 63

/-- Go's conversion `uint64(x)` applied to an `int64` value: reinterpret
the two's-complement bits as an unsigned value. -/
def toUInt64 (z : Int) : Nat := (z % (2 ^ 64 : Int)).toNat

/-- Block header, with exactly the fields `verifyHeader`, `VerifyHeader`,
`verifyHeaderWorker`, `VerifySeal`, `Finalize` and `accumulateRewards`
read.  `parentHash`, `coinbase` and `root` are opaque words (hashes and
addresses are never inspected structurally by this code, only compared);
`extra` is the byte slice `header.Extra`; `time` is the `*big.Int`
timestamp; `number` is the (non-negative) `*big.Int` block number;
`gasLimit` and `gasUsed` are `uint64` values. -/
structure Header where
  parentHash : Nat
  number : Nat
  time : Int
  gasLimit : Nat
  gasUsed : Nat
  extra : List Nat
  coinbase : Nat
  root : Nat
deriving DecidableEq, Repr

instance : Inhabited Header := ⟨⟨0, 0, 0, 0, 0, [], 0, 0⟩⟩

/-- The error outcomes of header verification in `consensus.go`.  The
first six correspond to the spec's `HeaderRuleViolation` family,
`invalidPoW` is the spec's `SealInvalid`, and `unknownAncestor` is the
spec's `UnknownAncestor` (`consensus.ErrUnknownAncestor`). -/
inductive VErr where
  | extraTooLong
  | futureBlock
  | zeroBlockTime
  | gasLimitTooHigh
  | gasUsedExceedsLimit
  | invalidGasLimit
  | invalidNumber
  | invalidPoW
  | unknownAncestor
deriving DecidableEq, Repr

/-- The `dops` engine state read by `VerifySeal`: the `fakeFail` block
number (a `uint64`) at which the seal check reports `errInvalidPoW`, and
the `fakeDelay` slept before answering (irrelevant to any result). -/
structure DposEngine where
  fakeFail : Nat
  fakeDelay : Nat
deriving DecidableEq, Repr

/-- The three `params` package constants read by `verifyHeader`
(`MaximumExtraDataSize`, `GasLimitBoundDivisor`, `MinGasLimit`); the
`params` package is not part of the sources under verification, so they
are carried as explicit parameters. -/
structure VParams where
  maximumExtraDataSize : Nat
  gasLimitBoundDivisor : Nat
  minGasLimit : Nat
deriving DecidableEq, Repr

/-- `allowedFutureBlockTime = 15 * time.Second`, in Unix seconds. -/
def allowedFutureBlockTime : Int := 15

/-- Embedding of `dops.VerifySeal`: after sleeping `fakeDelay`, return
`errInvalidPoW` when `fakeFail == header.Number.Uint64()`, else `nil`
(everything below that in the Go function is commented out). -/
def VerifySeal (eng : DposEngine) (header : Header) : Option VErr :=
  if eng.fakeFail = header.number % U64MOD then some .invalidPoW else none

/-- The gas-limit-delta computation of `verifyHeader` (consensus.go
lines 185-188): `diff := int64(parent.GasLimit) - int64(header.GasLimit);
if diff < 0 { diff *= -1 }`, with the result then compared as a
`uint64`. -/
def gasDeltaU64 (header parent : Header) : Nat :=
  let diff0 : Int := wrap64 (toInt64 parent.gasLimit - toInt64 header.gasLimit)
  let diff : Int := if diff0 < 0 then wrap64 (-diff0) else diff0
  toUInt64 diff

/-- Embedding of the private `dops.verifyHeader(chain, header, parent, seal)`.
`now` is the Unix time read via `time.Now()` in the future-block check. -/
def verifyHeader (ps : VParams) (eng : DposEngine) (now : Int)
    (header parent : Header) (checkSeal : Bool) : Option VErr :=
  if header.extra.length > ps.maximumExtraDataSize then some .extraTooLong
  else if header.time > now + allowedFutureBlockTime then some .futureBlock
  else if header.time ≤ parent.time then some .zeroBlockTime
  else if header.gasLimit > 2 ^ 63 - 1 then some .gasLimitTooHigh
  else if header.gasUsed > header.gasLimit then some .gasUsedExceedsLimit
  else if gasDeltaU64 header parent ≥ parent.gasLimit / ps.gasLimitBoundDivisor ∨
      header.gasLimit < ps.minGasLimit then some .invalidGasLimit
  else if header.number ≠ parent.number + 1 then some .invalidNumber
  else if checkSeal then VerifySeal eng header else none

/-- The chain observer interface as used here: `GetHeader(hash, number)`. -/
abbrev ChainReader := Nat → Nat → Option Header

/-- Go's `n - 1` on a `uint64` (wraps at zero). -/
def u64sub1 (n : Nat) : Nat := (n % U64MOD + (U64MOD - 1)) % U64MOD

/-- Embedding of the public `dops.VerifyHeader(chain, header, seal)`.
`hashOf` stands for the pure hash function `(*types.Header).Hash()`. -/
def VerifyHeader (ps : VParams) (eng : DposEngine) (now : Int)
    (chain : ChainReader) (hashOf : Header → Nat)
    (header : Header) (checkSeal : Bool) : Option VErr :=
  let number := header.number % U64MOD
  if (chain (hashOf header) number).isSome then none
  else
    match chain header.parentHash (u64sub1 number) with
    | none => some .unknownAncestor
    | some parent => verifyHeader ps eng now header parent checkSeal

/-- `headers[i]`, the Go slice access (all uses are in bounds). -/
def nthHeader (headers : List Header) (i : Nat) : Header :=
  headers.getD i default

/-- `seals[i]`, the Go slice access (all uses are in bounds). -/
def nthSeal (seals : List Bool) (i : Nat) : Bool :=
  seals.getD i false

/-- Embedding of `dops.verifyHeaderWorker(chain, headers, seals, index)`. -/
def verifyHeaderWorker (ps : VParams) (eng : DposEngine) (now : Int)
    (chain : ChainReader) (hashOf : Header → Nat)
    (headers : List Header) (seals : List Bool) (index : Nat) : Option VErr :=
  let hdr := nthHeader headers index
  let parent? : Option Header :=
    if index = 0 then
      chain hdr.parentHash (u64sub1 (hdr.number % U64MOD))
    else if hashOf (nthHeader headers (index - 1)) = hdr.parentHash then
      some (nthHeader headers (index - 1))
    else none
  match parent? with
  | none => some .unknownAncestor
  | some parent =>
    if (chain (hashOf hdr) (hdr.number % U64MOD)).isSome then none
    else verifyHeader ps eng now hdr parent (nthSeal seals index)

/-!
## The ordered fan-in sequencer of `VerifyHeaders`

`VerifyHeaders` spawns workers that post each finished index on the
buffered `done` channel; a sequencing goroutine keeps a `checked` array
and an `out` cursor, and on each received index runs

    for checked[index] = true; checked[out]; out++ {
        errorsOut <- errors[out]
        if out == len(headers)-1 { return }
    }

The functions below embed that loop.  The order in which `done` indices
are received is the one source of scheduling nondeterminism that affects
the emitted sequence, so the sequencer is modelled as a fold over an
arbitrary list of received indices. -/

/-- The inner `for` loop body: starting at cursor `out` with the updated
`checked` predicate, emit the run of consecutively checked indices.
Returns the final cursor, the emitted indices in order, and whether the
loop hit `out == n-1` and returned (all results emitted).  `fuel` bounds
the recursion and is always called with `fuel = n ≥ n - out`. -/
def drain (n : Nat) (checked : Nat → Bool) (out : Nat) : Nat → Nat × List Nat × Bool
  | 0 => (out, [], false)
  | fuel + 1 =>
    if checked out then
      if out = n - 1 then (out, [out], true)
      else
        let r := drain n checked (out + 1) fuel
        (r.1, out :: r.2.1, r.2.2)
    else (out, [], false)

/-- Sequencer state: `checked`, the cursor `out`, the indices emitted so
far (in emission order) and whether the goroutine has returned after
emitting the last result. -/
structure SeqState where
  checked : Nat → Bool
  out : Nat
  emitted : List Nat
  finished : Bool

def seqInit : SeqState := ⟨fun _ => false, 0, [], false⟩

/-- Receive one index from `done`: mark it checked and run the emission
loop.  After the goroutine has returned, further events are ignored. -/
def seqStep (n : Nat) (s : SeqState) (i : Nat) : SeqState :=
  if s.finished then s
  else
    let c : Nat → Bool := fun j => if j = i then true else s.checked j
    let r := drain n c s.out n
    ⟨c, r.1, s.emitted ++ r.2.1, r.2.2⟩

/-- Run the sequencer over a whole sequence of received `done` indices. -/
def seqRun (n : Nat) (events : List Nat) : SeqState :=
  events.foldl (seqStep n) seqInit

/-- The error sequence `VerifyHeaders` delivers on its results channel,
as a function of the per-index worker results `errs` and of the order
`events` in which worker completions were received.  For `n = 0` the Go
code returns without spawning anything and delivers no results. -/
def VerifyHeadersOutput (n : Nat) (errs : Nat → Option VErr)
    (events : List Nat) : List (Option VErr) :=
  if n = 0 then [] else ((seqRun n events).emitted).map errs

/-!
## A small-step model of the `VerifyHeaders` worker pool

For the cancellation behaviour the channel-level detail matters, so the
whole pipeline is also modelled as a transition system: the sequencer
goroutine (select over `inputs <- in`, `<-done`, `<-abort`), the worker
goroutines (`for index := range inputs { ...; done <- index }`), the
buffered `done` channel of capacity `workers`, the unbuffered `inputs`
channel, and the `abort` channel raised by the caller.  Successor states
are enumerated by an executable function, so concrete schedules can be
checked by evaluation. -/

/-- A worker goroutine is blocked receiving on `inputs` (`waiting`),
has computed `errors[i]` and is blocked or about to send `i` on `done`
(`sending i`), or has left its `range inputs` loop (`exited`). -/
inductive WState where
  | waiting
  | sending (i : Nat)
  | exited
deriving DecidableEq, Repr

/-- Batch length and worker count (`workers = min(GOMAXPROCS, n)`; the
`done` channel is created with capacity `workers`). -/
structure VHParams where
  n : Nat
  workers : Nat
deriving DecidableEq, Repr

/-- A configuration of the `VerifyHeaders` pipeline.  `inCnt` is the
sequencer's `in`; `inputsNil` records that its local `inputs` variable
was set to `nil` (it stops offering indices); `inputsClosed` records that
`close(inputs)` ran (deferred until the sequencer goroutine returns);
`queue` is the content of the buffered `done` channel; `checked`, `out`,
`emitted` are the sequencer's fan-in state; `seqReturned` is true once
the sequencer goroutine has returned; `aborted` is true once the caller
has raised the abort signal. -/
structure VHState where
  inCnt : Nat
  inputsNil : Bool
  inputsClosed : Bool
  queue : List Nat
  ws : List WState
  seqReturned : Bool
  out : Nat
  checked : List Bool
  emitted : List Nat
  aborted : Bool
deriving DecidableEq, Repr

/-- Initial configuration: all workers blocked on `inputs`, empty `done`
buffer, sequencer at `in = 0, out = 0`. -/
def vhInit (p : VHParams) : VHState :=
  { inCnt := 0, inputsNil := false, inputsClosed := false, queue := []
    ws := List.replicate p.workers .waiting, seqReturned := false
    out := 0, checked := List.replicate p.n false, emitted := []
    aborted := false }

/-- Sequencer takes the `case inputs <- in` branch, rendezvousing with a
worker blocked on `inputs`; the worker computes `errors[in]` and moves to
its `done <- in` send.  One successor per waiting worker. -/
def dispatchSteps (p : VHParams) (s : VHState) : List VHState :=
  if s.seqReturned || s.inputsNil then []
  else
    (List.range s.ws.length).filterMap fun k =>
      if s.ws.getD k .exited = .waiting then
        some { s with ws := s.ws.set k (.sending s.inCnt)
                      inCnt := s.inCnt + 1
                      inputsNil := decide (s.inCnt + 1 = p.n) }
      else none

/-- A worker's `done <- i` send completes: enabled only while the `done`
buffer has room (capacity `workers`); the worker returns to the head of
its `range inputs` loop. -/
def enqueueSteps (p : VHParams) (s : VHState) : List VHState :=
  (List.range s.ws.length).filterMap fun k =>
    match s.ws.getD k .exited with
    | .sending i =>
      if s.queue.length < p.workers then
        some { s with queue := s.queue ++ [i], ws := s.ws.set k .waiting }
      else none
    | _ => none

/-- Sequencer takes the `case index := <-done` branch and runs the
emission loop; if the loop emitted the last result the goroutine returns
and `close(inputs)` runs. -/
def consumeDoneSteps (p : VHParams) (s : VHState) : List VHState :=
  if s.seqReturned then []
  else
    match s.queue with
    | [] => []
    | i :: rest =>
      let c := s.checked.set i true
      let r := drain p.n (fun j => c.getD j false) s.out p.n
      [{ s with queue := rest, checked := c, out := r.1
                emitted := s.emitted ++ r.2.1
                seqReturned := r.2.2
                inputsClosed := s.inputsClosed || r.2.2 }]

/-- A worker blocked on `inputs` observes the channel closed and exits. -/
def workerExitSteps (s : VHState) : List VHState :=
  if s.inputsClosed then
    (List.range s.ws.length).filterMap fun k =>
      if s.ws.getD k .exited = .waiting then
        some { s with ws := s.ws.set k .exited }
      else none
  else []

/-- The caller raises the abort signal (closes the `abort` channel). -/
def raiseAbortSteps (s : VHState) : List VHState :=
  if s.aborted then [] else [{ s with aborted := true }]

/-- Sequencer takes the `case <-abort` branch and returns; the deferred
`close(inputs)` runs. -/
def abortReturnSteps (s : VHState) : List VHState :=
  if s.aborted && !s.seqReturned then
    [{ s with seqReturned := true, inputsClosed := true }]
  else []

/-- All successor configurations of `s`. -/
def vhNexts (p : VHParams) (s : VHState) : List VHState :=
  dispatchSteps p s ++ enqueueSteps p s ++ consumeDoneSteps p s ++
    workerExitSteps s ++ raiseAbortSteps s ++ abortReturnSteps s

/-- One scheduling step. -/
def VHStep (p : VHParams) (a b : VHState) : Prop := b ∈ vhNexts p a

instance (p : VHParams) (a b : VHState) : Decidable (VHStep p a b) :=
  inferInstanceAs (Decidable (b ∈ vhNexts p a))

/-- Reachability under some schedule. -/
def VHReach (p : VHParams) : VHState → VHState → Prop :=
  Relation.ReflTransGen (VHStep p)

/-!
## Finalization

`Finalize` and `accumulateRewards`.  The `params.ChainConfig` and
`state.StateDB` types live outside the verified sources, so the two
operations the code performs on them are modelled from the spec. -/

/-- `FrontierBlockReward = big.NewInt(5e+18)`. -/
def FrontierBlockReward : Int := 5 * 10 ^ 18

/-- `ByzantiumBlockReward = big.NewInt(3e+18)`. -/
def ByzantiumBlockReward : Int := 3 * 10 ^ 18

/-- The chain configuration as read by `accumulateRewards`: only the
Byzantium transition block matters. -/
structure ChainConfig where
  byzantiumBlock : Option Nat
deriving DecidableEq, Repr

/-- Modelled from the spec: `params.ChainConfig.IsByzantium` is not under
the verified sources.  Per the spec, the reward switches to the lower
constant "after a configured transition block", holding "from that block
onward": `IsByzantium n` is true exactly when a transition block is
configured and `n` is at or past it. -/
def ChainConfig.IsByzantium (c : ChainConfig) (n : Nat) : Bool :=
  match c.byzantiumBlock with
  | none => false
  | some b => decide (b ≤ n)

/-- The state database, abstracted to what `accumulateRewards` and
`Finalize` touch: a balance per address plus an opaque remainder `ρ`
standing for every other piece of state. -/
structure StateDB (ρ : Type) where
  balances : Nat → Int
  rest : ρ

/-- Modelled from the spec: `state.StateDB.AddBalance` is not under the
verified sources; it credits `amount` to the one account `addr`. -/
def StateDB.AddBalance {ρ : Type} (s : StateDB ρ) (addr : Nat) (amount : Int) :
    StateDB ρ :=
  { s with balances := fun a => if a = addr then s.balances a + amount else s.balances a }

/-- Embedding of `accumulateRewards(config, state, header)`. -/
def accumulateRewards {ρ : Type} (config : ChainConfig) (s : StateDB ρ)
    (header : Header) : StateDB ρ :=
  let blockReward := FrontierBlockReward
  let blockReward := if config.IsByzantium header.number then ByzantiumBlockReward else blockReward
  let reward := blockReward
  s.AddBalance header.coinbase reward

/-- The assembled block: `types.NewBlock(header, txs, receipts)` (not
under the verified sources) is modelled as the record of its inputs;
transactions and receipts are opaque. -/
structure Block where
  header : Header
  txs : List Nat
  receipts : List Nat
deriving DecidableEq, Repr

/-- Embedding of `dops.Finalize`: accumulate the reward, commit
`state.IntermediateRoot(true)` into `header.Root`, and assemble the
block.  `intermediateRoot` stands for the (external, pure-in-effect)
`state.StateDB.IntermediateRoot`; the mutated state is returned
alongside the block. -/
def Finalize {ρ : Type} (config : ChainConfig)
    (intermediateRoot : StateDB ρ → Bool → Nat)
    (header : Header) (s : StateDB ρ) (txs receipts : List Nat) :
    Block × StateDB ρ :=
  let s' := accumulateRewards config s header
  let header' := { header with root := intermediateRoot s' true }
  ({ header := header', txs := txs, receipts := receipts }, s')

/-!
## Arithmetic lemmas about the `uint64`/`int64` reinterpretations
-/

theorem toInt64_of_lt {n : Nat} (h : n < 2 ^ 63) : toInt64 n = (n : Int) := by
  unfold toInt64 U64MOD
  have hm : n % 2 ^ 64 = n := Nat.mod_eq_of_lt (by omega)
  rw [hm, if_pos h]

theorem wrap64_of_bounds {z : Int} (h1 : -(2 ^ 63) ≤ z) (h2 : z < 2 ^ 63) :
    wrap64 z = z := by
  unfold wrap64
  omega

theorem toUInt64_of_bounds {z : Int} (h1 : 0 ≤ z) (h2 : z < 2 ^ 64) :
    toUInt64 z = z.toNat := by
  unfold toUInt64
  omega

/-- Under the bounds that the surrounding checks establish, the Go
`int64` round-trip in the gas-limit-delta computation is the plain
absolute difference of the two gas limits. -/
theorem gasDeltaU64_eq_natAbs (h p : Header) (hp : p.gasLimit < 2 ^ 63)
    (hh : h.gasLimit < 2 ^ 63) :
    gasDeltaU64 h p = ((p.gasLimit : Int) - (h.gasLimit : Int)).natAbs := by
  unfold gasDeltaU64
  rw [toInt64_of_lt hp, toInt64_of_lt hh]
  have hw : wrap64 ((p.gasLimit : Int) - (h.gasLimit : Int)) =
      (p.gasLimit : Int) - (h.gasLimit : Int) :=
    wrap64_of_bounds (by omega) (by omega)
  simp only [hw]
  by_cases hab : (p.gasLimit : Int) - (h.gasLimit : Int) < 0
  · rw [if_pos hab, wrap64_of_bounds (by omega) (by omega)]
    rw [toUInt64_of_bounds (by omega) (by omega)]
    omega
  · rw [if_neg hab]
    rw [toUInt64_of_bounds (by omega) (by omega)]
    omega

/-- Branch-by-branch characterization of a successful `verifyHeader`
run with the gas-limit delta still in its raw `uint64` form. -/
theorem verifyHeader_true_eq_none_iff (ps : VParams) (eng : DposEngine)
    (now : Int) (h p : Header) :
    verifyHeader ps eng now h p true = none ↔
      (h.extra.length ≤ ps.maximumExtraDataSize ∧
       h.time ≤ now + allowedFutureBlockTime ∧
       p.time < h.time ∧
       h.gasLimit ≤ 2 ^ 63 - 1 ∧
       h.gasUsed ≤ h.gasLimit ∧
       (gasDeltaU64 h p < p.gasLimit / ps.gasLimitBoundDivisor ∧
        ps.minGasLimit ≤ h.gasLimit) ∧
       h.number = p.number + 1 ∧
       VerifySeal eng h = none) := by
  unfold verifyHeader
  split_ifs with h1 h2 h3 h4 h5 h6 h7 h8
  · simp only [reduceCtorEq, false_iff]
    rintro ⟨a1, a2, a3, a4, a5, ⟨a6, a7⟩, a8, a9⟩; omega
  · simp only [reduceCtorEq, false_iff]
    rintro ⟨a1, a2, a3, a4, a5, ⟨a6, a7⟩, a8, a9⟩; omega
  · simp only [reduceCtorEq, false_iff]
    rintro ⟨a1, a2, a3, a4, a5, ⟨a6, a7⟩, a8, a9⟩; omega
  · simp only [reduceCtorEq, false_iff]
    rintro ⟨a1, a2, a3, a4, a5, ⟨a6, a7⟩, a8, a9⟩; omega
  · simp only [reduceCtorEq, false_iff]
    rintro ⟨a1, a2, a3, a4, a5, ⟨a6, a7⟩, a8, a9⟩; omega
  · simp only [reduceCtorEq, false_iff]
    rintro ⟨a1, a2, a3, a4, a5, ⟨a6, a7⟩, a8, a9⟩; omega
  · simp only [reduceCtorEq, false_iff]
    rintro ⟨a1, a2, a3, a4, a5, ⟨a6, a7⟩, a8, a9⟩; omega
  · constructor
    · intro hs
      exact ⟨by omega, by omega, by omega, by omega, by omega, ⟨by omega, by omega⟩,
        by omega, hs⟩
    · rintro ⟨a1, a2, a3, a4, a5, ⟨a6, a7⟩, a8, a9⟩
      exact a9
  · exact absurd rfl h8

/-!
## C1: success characterization of `verifyHeader`
-/

/-!
## C1: success characterization of `verifyHeader`
-/

/-- Standard parameter values (`params.MaximumExtraDataSize = 32`,
`params.GasLimitBoundDivisor = 1024`, `params.MinGasLimit = 5000`),
used only to build concrete instances. -/
def psStd : VParams := ⟨32, 1024, 5000⟩

/-- An engine whose fake-fail number matches none of the headers used in
the concrete instances: every seal is valid. -/
def engOK : DposEngine := ⟨999, 0⟩

/-- A fixed evaluation instant for the concrete instances. -/
def nowStd : Int := 10 ^ 9

/-- Concrete parent header used in the C1 instances. -/
def pC1 : Header := ⟨0, 0, 900, 100000, 0, [], 1, 0⟩

/-- Concrete child of `pC1` with `gasUsed = 0`: every check of
`verifyHeader` passes, yet the spec's condition `0 < gasUsed` fails. -/
def hC1 : Header := ⟨100, 1, 1000, 100000, 0, [], 1, 0⟩

/-- C1, counterexample: the claimed equivalence — `verifyHeader(H, P,
true)` succeeds iff timestamp(H) > timestamp(P), 0 < gasUsed(H) ≤
gasLimit(H) ≤ 2^63−1, |gasLimit(H) − gasLimit(P)| < gasLimit(P)/divisor,
number(H) = number(P)+1 and the seal is valid — is false at the concrete
pair `(hC1, pC1)`: verification succeeds although `gasUsed hC1 = 0`
(the code checks only `gasUsed ≤ gasLimit`, never `0 < gasUsed`; it also
checks extra-data size, the future-time bound and the minimum gas limit,
which the claim omits). -/
theorem c1_claim_counterexample :
    ¬ (verifyHeader psStd engOK nowStd hC1 pC1 true = none ↔
        (pC1.time < hC1.time ∧ 0 < hC1.gasUsed ∧ hC1.gasUsed ≤ hC1.gasLimit ∧
         hC1.gasLimit ≤ 2 ^ 63 - 1 ∧
         ((pC1.gasLimit : Int) - (hC1.gasLimit : Int)).natAbs <
           pC1.gasLimit / psStd.gasLimitBoundDivisor ∧
         hC1.number = pC1.number + 1 ∧ VerifySeal engOK hC1 = none)) := by
  decide

/-- C1 (amended): for a correct parent `P` (in particular one whose own
gas limit satisfies the cap, `gasLimit(P) < 2^63`), `verifyHeader(H, P,
true)` at wall-clock time `now` succeeds iff the extra data is within
bound, timestamp(H) ≤ now + 15s, timestamp(H) > timestamp(P),
gasLimit(H) ≤ 2^63−1, gasUsed(H) ≤ gasLimit(H) (zero gas used is
allowed), |gasLimit(H) − gasLimit(P)| < gasLimit(P)/divisor,
gasLimit(H) ≥ MinGasLimit, number(H) = number(P)+1, and the seal is
valid. -/
theorem c1_verifyHeader_success_iff
    (ps : VParams) (eng : DposEngine) (now : Int) (h p : Header)
    (hp : p.gasLimit < 2 ^ 63) :
    verifyHeader ps eng now h p true = none ↔
      (h.extra.length ≤ ps.maximumExtraDataSize ∧
       h.time ≤ now + allowedFutureBlockTime ∧
       p.time < h.time ∧
       h.gasLimit ≤ 2 ^ 63 - 1 ∧
       h.gasUsed ≤ h.gasLimit ∧
       ((p.gasLimit : Int) - (h.gasLimit : Int)).natAbs <
         p.gasLimit / ps.gasLimitBoundDivisor ∧
       ps.minGasLimit ≤ h.gasLimit ∧
       h.number = p.number + 1 ∧
       VerifySeal eng h = none) := by
  rw [verifyHeader_true_eq_none_iff]
  constructor
  · rintro ⟨a1, a2, a3, a4, a5, ⟨a6, a7⟩, a8, a9⟩
    have hd : gasDeltaU64 h p = ((p.gasLimit : Int) - (h.gasLimit : Int)).natAbs :=
      gasDeltaU64_eq_natAbs h p hp (by omega)
    exact ⟨a1, a2, a3, a4, a5, by omega, a7, a8, a9⟩
  · rintro ⟨a1, a2, a3, a4, a5, a6, a7, a8, a9⟩
    have hd : gasDeltaU64 h p = ((p.gasLimit : Int) - (h.gasLimit : Int)).natAbs :=
      gasDeltaU64_eq_natAbs h p hp (by omega)
    exact ⟨a1, a2, a3, a4, a5, ⟨by omega, a7⟩, a8, a9⟩

/-- C1 witness: the amended equivalence evaluated at a concrete valid
header (`gasUsed = 500`). -/
theorem c1_verifyHeader_success_iff_witness :
    pC1.gasLimit < 2 ^ 63 ∧
      (verifyHeader psStd engOK nowStd { hC1 with gasUsed := 500 } pC1 true = none ↔
        ({ hC1 with gasUsed := 500 } : Header).extra.length ≤ psStd.maximumExtraDataSize ∧
        ({ hC1 with gasUsed := 500 } : Header).time ≤ nowStd + allowedFutureBlockTime ∧
        pC1.time < ({ hC1 with gasUsed := 500 } : Header).time ∧
        ({ hC1 with gasUsed := 500 } : Header).gasLimit ≤ 2 ^ 63 - 1 ∧
        ({ hC1 with gasUsed := 500 } : Header).gasUsed ≤ ({ hC1 with gasUsed := 500 } : Header).gasLimit ∧
        ((pC1.gasLimit : Int) - (({ hC1 with gasUsed := 500 } : Header).gasLimit : Int)).natAbs <
          pC1.gasLimit / psStd.gasLimitBoundDivisor ∧
        psStd.minGasLimit ≤ ({ hC1 with gasUsed := 500 } : Header).gasLimit ∧
        ({ hC1 with gasUsed := 500 } : Header).number = pC1.number + 1 ∧
        VerifySeal engOK { hC1 with gasUsed := 500 } = none) :=
  ⟨by decide,
   c1_verifyHeader_success_iff psStd engOK nowStd { hC1 with gasUsed := 500 } pC1 (by decide)⟩

/-!
## C8: the rule checks run in a fixed order, first failure wins
-/

/-- `VerifySeal` has exactly two outcomes: acceptance or the
proof-of-work error. -/
theorem VerifySeal_cases (eng : DposEngine) (h : Header) :
    VerifySeal eng h = none ∨ VerifySeal eng h = some VErr.invalidPoW := by
  unfold VerifySeal
  split <;> simp

/-- Return the error of the first check in the list whose condition
holds, `none` when every check passes. -/
def firstFailing : List (Bool × VErr) → Option VErr
  | [] => none
  | (b, e) :: rest => if b then some e else firstFailing rest

/-- The ordered list of checks the spec prescribes for `verifyHeader`:
extra-data size bound; timestamp not implausibly far in the future;
timestamp strictly greater than the parent's; gas-limit absolute
ceiling; gas-used ≤ gas-limit; gas-limit delta from the parent bounded
by the divisor-derived tolerance together with the protocol minimum
floor; block number exactly parent's plus one; and (if requested) seal
validity. -/
def orderedRuleChecks (ps : VParams) (eng : DposEngine) (now : Int)
    (h p : Header) (checkSeal : Bool) : List (Bool × VErr) :=
  [ (decide (h.extra.length > ps.maximumExtraDataSize), .extraTooLong),
    (decide (h.time > now + allowedFutureBlockTime), .futureBlock),
    (decide (h.time ≤ p.time), .zeroBlockTime),
    (decide (h.gasLimit > 2 ^ 63 - 1), .gasLimitTooHigh),
    (decide (h.gasUsed > h.gasLimit), .gasUsedExceedsLimit),
    (decide (gasDeltaU64 h p ≥ p.gasLimit / ps.gasLimitBoundDivisor ∨
             h.gasLimit < ps.minGasLimit), .invalidGasLimit),
    (decide (h.number ≠ p.number + 1), .invalidNumber),
    (checkSeal && (VerifySeal eng h).isSome, .invalidPoW) ]

/-- C8: `verifyHeader` applies its rule checks in exactly the order the
spec lists and returns the error of the first check that fails (the
seal check, when it fails, fails with the seal error). -/
theorem c8_checks_in_order (ps : VParams) (eng : DposEngine) (now : Int)
    (h p : Header) (checkSeal : Bool) :
    verifyHeader ps eng now h p checkSeal =
      firstFailing (orderedRuleChecks ps eng now h p checkSeal) := by
  unfold verifyHeader orderedRuleChecks
  simp only [firstFailing, decide_eq_true_eq]
  split_ifs <;> try rfl
  all_goals rcases VerifySeal_cases eng h with hv | hv <;> simp_all

/-!
## C9: known headers short-circuit the public `VerifyHeader`
-/

/-- C9: when the chain observer already knows the header (it returns a
header for its hash at its number), the public `VerifyHeader` returns
success immediately — no consensus-rule check and no seal check is
applied, whatever the header's contents and whatever the engine. -/
theorem c9_known_header_short_circuit (ps : VParams) (eng : DposEngine)
    (now : Int) (chain : ChainReader) (hashOf : Header → Nat)
    (h : Header) (checkSeal : Bool)
    (hknown : (chain (hashOf h) (h.number % U64MOD)).isSome = true) :
    VerifyHeader ps eng now chain hashOf h checkSeal = none := by
  unfold VerifyHeader
  simp [hknown]

/-- A header that violates the consensus rules outright
(`gasUsed = 100000 > gasLimit = 10`). -/
def hBad : Header := ⟨0, 9, 99999, 10, 100000, [], 1, 0⟩

def hashW : Header → Nat := fun h => h.number

/-- A chain observer that already contains `hBad`. -/
def chainW : ChainReader := fun hash num =>
  if hash = 9 ∧ num = 9 then some hBad else none

/-- C9 witness: `hBad` would fail `verifyHeader` against any parent
(shown here against itself), yet `VerifyHeader` accepts it because the
chain already knows it. -/
theorem c9_known_header_short_circuit_witness :
    (chainW (hashW hBad) (hBad.number % U64MOD)).isSome = true ∧
      VerifyHeader psStd engOK nowStd chainW hashW hBad true = none ∧
      verifyHeader psStd engOK nowStd hBad hBad true ≠ none :=
  ⟨by decide,
   c9_known_header_short_circuit psStd engOK nowStd chainW hashW hBad true (by decide),
   by decide⟩

/-!
## C5: the seal is checked exactly when requested
-/

set_option maxHeartbeats 2000000 in
/-- C5: seal handling of `verifyHeader`.  (i) A header with an invalid
seal never verifies with `checkSeal = true`; (ii) when every other check
passes, the `checkSeal = true` outcome is exactly the `VerifySeal`
outcome; (iii) with `checkSeal = false` a seal error is never produced
and (iv) the outcome does not depend on the engine's seal state at all
(the check is skipped); (v) `VerifySeal` rejects precisely the headers
whose number equals the engine's fake-fail number — the code's one
notion of an invalid seal. -/
theorem c5_seal_checked_iff_requested (ps : VParams) (now : Int) :
    (∀ (eng : DposEngine) (h p : Header), VerifySeal eng h ≠ none →
        verifyHeader ps eng now h p true ≠ none) ∧
    (∀ (eng : DposEngine) (h p : Header),
        verifyHeader ps eng now h p false = none →
        verifyHeader ps eng now h p true = VerifySeal eng h) ∧
    (∀ (eng : DposEngine) (h p : Header),
        verifyHeader ps eng now h p false ≠ some VErr.invalidPoW) ∧
    (∀ (eng eng' : DposEngine) (h p : Header),
        verifyHeader ps eng now h p false = verifyHeader ps eng' now h p false) ∧
    (∀ (eng : DposEngine) (h : Header),
        VerifySeal eng h = none ↔ eng.fakeFail ≠ h.number % U64MOD) := by
  refine ⟨?_, ?_, ?_, ?_, ?_⟩
  · intro eng h p hs
    unfold verifyHeader
    split_ifs <;> simp_all
  · intro eng h p hpre
    unfold verifyHeader at hpre ⊢
    split_ifs at hpre ⊢ <;> simp_all
  · intro eng h p
    unfold verifyHeader
    split_ifs <;> simp_all
  · intro eng eng' h p
    rfl
  · intro eng h
    unfold VerifySeal
    split_ifs <;> simp_all


/-- C5 witness: with every non-seal check passing and the engine's
fake-fail number equal to the header's, `verifyHeader` with
`checkSeal = true` returns exactly the seal error. -/
theorem c5_seal_checked_iff_requested_witness :
    verifyHeader psStd ⟨1, 0⟩ nowStd hC1 pC1 true = VerifySeal ⟨1, 0⟩ hC1 :=
  (c5_seal_checked_iff_requested psStd nowStd).2.1 ⟨1, 0⟩ hC1 pC1 (by decide)

/-!
## C4: when `UnknownAncestor` is reported
-/

/-- The consensus-rule checker itself never reports a missing ancestor:
`unknownAncestor` can only come from parent resolution. -/
theorem verifyHeader_ne_unknownAncestor (ps : VParams) (eng : DposEngine)
    (now : Int) (h p : Header) (checkSeal : Bool) :
    verifyHeader ps eng now h p checkSeal ≠ some VErr.unknownAncestor := by
  unfold verifyHeader VerifySeal
  split_ifs <;> simp_all

/-- C4, counterexample to the claim as stated: a header that the chain
already knows but whose parent the chain does not have.  Single-header
verification returns success (the known-header short circuit fires
before parent resolution), so `UnknownAncestor` is *not* returned even
though the claimed parent cannot be found, refuting the claimed
equivalence. -/
theorem c4_claim_counterexample :
    ¬ ((VerifyHeader psStd engOK nowStd chainW hashW hBad true =
          some VErr.unknownAncestor) ↔
        chainW hBad.parentHash (u64sub1 (hBad.number % U64MOD)) = none) := by
  decide

/-- C4 (amended): `UnknownAncestor` is returned iff the claimed parent
cannot be found, *provided the header itself is not already known*.
For single verification: iff the chain knows neither the header (at its
hash and number) nor any header with its `ParentHash` at number−1.  For
batch verification at position `index`: position 0 resolves its parent
through the chain, and positions `index > 0` resolve it from the
preceding batch entry exactly when that entry's hash equals this entry's
`ParentHash`; `UnknownAncestor` is returned iff resolution fails (for
workers the parent check precedes the known-header check, so known-ness
does not mask it). -/
theorem c4_unknown_ancestor_iff (ps : VParams) (eng : DposEngine) (now : Int)
    (chain : ChainReader) (hashOf : Header → Nat) (h : Header) (checkSeal : Bool)
    (headers : List Header) (seals : List Bool) (index : Nat)
    (hidx : index < headers.length) :
    ((VerifyHeader ps eng now chain hashOf h checkSeal = some VErr.unknownAncestor) ↔
      (chain (hashOf h) (h.number % U64MOD) = none ∧
       chain h.parentHash (u64sub1 (h.number % U64MOD)) = none)) ∧
    ((verifyHeaderWorker ps eng now chain hashOf headers seals index =
        some VErr.unknownAncestor) ↔
      (if index = 0 then
        chain (nthHeader headers 0).parentHash
          (u64sub1 ((nthHeader headers 0).number % U64MOD)) = none
       else
        hashOf (nthHeader headers (index - 1)) ≠
          (nthHeader headers index).parentHash)) := by
  constructor
  · unfold VerifyHeader
    cases hk : chain (hashOf h) (h.number % U64MOD) with
    | some g => simp [hk]
    | none =>
      cases hpar : chain h.parentHash (u64sub1 (h.number % U64MOD)) with
      | none => simp [hk, hpar]
      | some parent => simp [hk, hpar, verifyHeader_ne_unknownAncestor]
  · unfold verifyHeaderWorker
    by_cases hi : index = 0
    · subst hi
      simp only [if_pos rfl]
      cases hpar : chain (nthHeader headers 0).parentHash
          (u64sub1 ((nthHeader headers 0).number % U64MOD)) with
      | none => simp [hpar]
      | some parent =>
        split <;> simp_all [verifyHeader_ne_unknownAncestor]
    · simp only [if_neg hi]
      by_cases hm : hashOf (nthHeader headers (index - 1)) =
          (nthHeader headers index).parentHash
      · simp only [if_pos hm]
        constructor
        · intro hres
          exfalso
          revert hres
          split <;> simp [verifyHeader_ne_unknownAncestor]
        · intro hres
          exact absurd hm hres
      · simp [hm]

def hashC4w : Header → Nat := fun h => h.number + 300

/-- A chain observer holding `pC1` under `hC1`'s parent hash. -/
def chainC4w : ChainReader := fun hash num =>
  if hash = 100 ∧ num = 0 then some pC1 else none

/-- C4 witness: the amended equivalence at a one-element batch whose
head's parent is present in the chain. -/
theorem c4_unknown_ancestor_iff_witness :
    0 < [hC1].length ∧
      ((verifyHeaderWorker psStd engOK nowStd chainC4w hashC4w [hC1] [true] 0 =
          some VErr.unknownAncestor) ↔
        (if (0 : Nat) = 0 then
          chainC4w (nthHeader [hC1] 0).parentHash
            (u64sub1 ((nthHeader [hC1] 0).number % U64MOD)) = none
         else
          hashC4w (nthHeader [hC1] (0 - 1)) ≠
            (nthHeader [hC1] 0).parentHash)) :=
  ⟨by decide,
   (c4_unknown_ancestor_iff psStd engOK nowStd chainC4w hashC4w hC1 true
      [hC1] [true] 0 (by decide)).2⟩

/-!
## C6 and C10: finalization credits exactly one reward
-/

/-- C6: `Finalize` credits exactly one fixed issuance reward to the
header's coinbase — the higher constant (`5e18`) before the configured
transition block and the lower constant (`3e18`) from that block onward
— leaves every other balance unchanged, and commits the state root of
the post-reward state into the `Root` field of the header it assembles
into the block. -/
theorem c6_finalize_reward_and_root {ρ : Type} (config : ChainConfig)
    (intermediateRoot : StateDB ρ → Bool → Nat) (header : Header)
    (s : StateDB ρ) (txs receipts : List Nat) :
    ((Finalize config intermediateRoot header s txs receipts).2.balances header.coinbase =
        s.balances header.coinbase +
          (if config.IsByzantium header.number then ByzantiumBlockReward
           else FrontierBlockReward)) ∧
    (∀ a, a ≠ header.coinbase →
        (Finalize config intermediateRoot header s txs receipts).2.balances a =
          s.balances a) ∧
    ((Finalize config intermediateRoot header s txs receipts).1.header.root =
        intermediateRoot (Finalize config intermediateRoot header s txs receipts).2 true) ∧
    ((Finalize config intermediateRoot header s txs receipts).1.header =
        { header with root := intermediateRoot (accumulateRewards config s header) true }) ∧
    ByzantiumBlockReward < FrontierBlockReward ∧
    (∀ b n, config.byzantiumBlock = some b →
        (config.IsByzantium n = true ↔ b ≤ n)) := by
  refine ⟨?_, ?_, ?_, ?_, ?_, ?_⟩
  · simp [Finalize, accumulateRewards, StateDB.AddBalance]
  · intro a ha
    simp [Finalize, accumulateRewards, StateDB.AddBalance, ha]
  · rfl
  · rfl
  · decide
  · intro b n hb
    simp [ChainConfig.IsByzantium, hb]

/-- C6 witness: the per-address balance clause applied concretely. -/
theorem c6_finalize_reward_and_root_witness :
    (Finalize ⟨some 5⟩ (fun _ _ => 42) hC1 (⟨fun _ => 0, 0⟩ : StateDB Nat)
        [] []).2.balances 7 = (0 : Int) :=
  (c6_finalize_reward_and_root ⟨some 5⟩ (fun _ _ => 42) hC1
      (⟨fun _ => 0, 0⟩ : StateDB Nat) [] []).2.1 7 (by decide)

/-- C10: `accumulateRewards` changes the balance of exactly the header's
coinbase (crediting the era-dependent reward once), leaves every other
account's balance and all non-balance state untouched, and reads the
header only through its `coinbase` and `number` fields (in this pure
embedding it returns no header at all, so the header argument is
trivially unmodified — the final clause pins down that the result cannot
even depend on the rest of the header). -/
theorem c10_accumulateRewards_frame {ρ : Type} (config : ChainConfig)
    (s : StateDB ρ) (header : Header) :
    ((accumulateRewards config s header).balances header.coinbase =
        s.balances header.coinbase +
          (if config.IsByzantium header.number then ByzantiumBlockReward
           else FrontierBlockReward)) ∧
    (∀ a, a ≠ header.coinbase →
        (accumulateRewards config s header).balances a = s.balances a) ∧
    ((accumulateRewards config s header).rest = s.rest) ∧
    (∀ h2 : Header, h2.coinbase = header.coinbase → h2.number = header.number →
        accumulateRewards config s h2 = accumulateRewards config s header) := by
  refine ⟨?_, ?_, ?_, ?_⟩
  · simp [accumulateRewards, StateDB.AddBalance]
  · intro a ha
    simp [accumulateRewards, StateDB.AddBalance, ha]
  · rfl
  · intro h2 hc hn
    simp [accumulateRewards, StateDB.AddBalance, hc, hn]

/-- C10 witness: the frame clause applied concretely (address 7 is not
the coinbase of `hC1`). -/
theorem c10_accumulateRewards_frame_witness :
    (accumulateRewards ⟨none⟩ (⟨fun _ => 3, 9⟩ : StateDB Nat) hC1).balances 7 = (3 : Int) :=
  (c10_accumulateRewards_frame ⟨none⟩ (⟨fun _ => 3, 9⟩ : StateDB Nat) hC1).2.1 7 (by decide)

/-!
## C2: the fan-in sequencer emits results in input order
-/

theorem drain_not_checked {n out fuel : Nat} {c : Nat → Bool}
    (h : c out = false) : drain n c out fuel = (out, [], false) := by
  cases fuel with
  | zero => rfl
  | succ f => simp [drain, h]

/-- `List.range out ++ List.range' out (m - out) = List.range m`. -/
theorem range_append_range' (out m : Nat) (h : out ≤ m) :
    List.range out ++ List.range' out (m - out) = List.range m := by
  rw [List.range_eq_range', List.range_eq_range']
  have h2 := List.range'_append 0 out (m - out) 1
  simp only [one_mul, Nat.zero_add] at h2
  rw [h2]
  congr 1
  omega

/-- When every index from the cursor to the end is checked, the
emission loop emits all of them and returns (the goroutine is done). -/
theorem drain_all {n : Nat} {c : Nat → Bool} :
    ∀ fuel out, out < n → n - out ≤ fuel →
      (∀ j, out ≤ j → j < n → c j = true) →
      drain n c out fuel = (n - 1, List.range' out (n - out), true) := by
  intro fuel
  induction fuel with
  | zero => intro out h1 h2 h3; omega
  | succ f ih =>
    intro out h1 h2 h3
    have hc : c out = true := h3 out Nat.le.refl h1
    by_cases hl : out = n - 1
    · subst hl
      have hone : n - (n - 1) = 1 := by omega
      simp [drain, hc, hone, List.range'_succ]
    · simp only [drain, hc, if_true, if_neg hl]
      rw [ih (out + 1) (by omega) (by omega) (fun j hj1 hj2 => h3 j (by omega) hj2)]
      have h4 : n - out = (n - (out + 1)) + 1 := by omega
      rw [h4, List.range'_succ]

/-- When `g` is the first unchecked index at or after the cursor, the
emission loop emits exactly the run up to `g` and stops there. -/
theorem drain_gap {n : Nat} {c : Nat → Bool} :
    ∀ fuel out g, out ≤ g → g < n → c g = false →
      (∀ j, out ≤ j → j < g → c j = true) → g - out < fuel →
      drain n c out fuel = (g, List.range' out (g - out), false) := by
  intro fuel
  induction fuel with
  | zero => intro out g h1 h2 h3 h4 h5; omega
  | succ f ih =>
    intro out g h1 h2 h3 h4 h5
    by_cases he : out = g
    · subst he
      simp [drain, h3]
    · have hc : c out = true := h4 out Nat.le.refl (by omega)
      have hl : out ≠ n - 1 := by omega
      simp only [drain, hc, if_true, if_neg hl]
      rw [ih (out + 1) g (by omega) h2 h3 (fun j hj1 hj2 => h4 j (by omega) hj2) (by omega)]
      have h6 : g - out = (g - (out + 1)) + 1 := by omega
      rw [h6, List.range'_succ]

/-- The sequencer invariant, relative to the list `l` of `done` indices
processed so far.  While running: `checked` is exactly membership in
`l`, the emitted list is the full prefix `0..out-1`, and `out` is the
least index not yet processed.  Once finished: everything was emitted
in order. -/
def SeqInv (n : Nat) (l : List Nat) (s : SeqState) : Prop :=
  (s.finished = true → s.emitted = List.range n ∧ ∀ j, j < n → j ∈ l) ∧
  (s.finished = false →
    (∀ j, s.checked j = true ↔ j ∈ l) ∧
    s.emitted = List.range s.out ∧
    s.out < n ∧
    s.out ∉ l ∧
    (∀ j, j < s.out → j ∈ l))

theorem seqInit_inv (n : Nat) (hn : 0 < n) : SeqInv n [] seqInit := by
  unfold SeqInv seqInit
  refine ⟨fun hfin => by simp at hfin, fun _ => ⟨by simp, by simp, hn, by simp, ?_⟩⟩
  intro j hj
  simp at hj

theorem seqStep_inv {n : Nat} {l : List Nat} {s : SeqState} (i : Nat)
    (h : SeqInv n l s) : SeqInv n (l ++ [i]) (seqStep n s i) := by
  by_cases hf : s.finished = true
  · unfold seqStep
    rw [if_pos hf]
    obtain ⟨hemit, hall⟩ := h.1 hf
    exact ⟨fun _ => ⟨hemit, fun j hj => List.mem_append.mpr (Or.inl (hall j hj))⟩,
      fun hff => absurd hf (by simp [hff])⟩
  · have hf' : s.finished = false := by
      cases hsf : s.finished with
      | true => exact absurd hsf hf
      | false => rfl
    obtain ⟨hiff, hemit, houtn, houtl, hbelow⟩ := h.2 hf'
    unfold seqStep
    rw [if_neg hf]
    dsimp only
    have hciff : ∀ j, (fun j => if j = i then true else s.checked j) j = true ↔
        j ∈ l ++ [i] := by
      intro j
      by_cases hj : j = i
      · subst hj; simp
      · simp [hj, hiff j]
    by_cases hio : i = s.out
    · by_cases hall : ∀ j, s.out ≤ j → j < n →
          (fun j => if j = i then true else s.checked j) j = true
      · rw [drain_all n s.out houtn (by omega) hall]
        refine ⟨fun _ => ⟨?_, ?_⟩, fun hff => by simp at hff⟩
        · simpa [hemit] using range_append_range' s.out n (by omega)
        · intro j hj
          rcases Nat.lt_or_ge j s.out with hlt | hge
          · exact List.mem_append.mpr (Or.inl (hbelow j hlt))
          · have := hall j hge hj
            exact (hciff j).mp this
      · push_neg at hall
        obtain ⟨j0, hj0a, hj0b, hj0c⟩ := hall
        have hex : ∃ j, s.out ≤ j ∧ j < n ∧
            (fun j => if j = i then true else s.checked j) j = false := by
          exact ⟨j0, hj0a, hj0b, by simpa using hj0c⟩
        classical
        let g := Nat.find hex
        obtain ⟨hga, hgb, hgc⟩ := Nat.find_spec hex
        have hgmin : ∀ j, s.out ≤ j → j < g →
            (fun j => if j = i then true else s.checked j) j = true := by
          intro j hj1 hj2
          have := Nat.find_min hex hj2
          simp only [not_and, not_or] at this
          rcases hb : (fun j => if j = i then true else s.checked j) j with _ | _
          · exact absurd hb (by
              intro hbb
              exact (this hj1 (by omega)) hbb)
          · rfl
        rw [drain_gap n s.out g hga hgb hgc hgmin (by omega)]
        refine ⟨fun hff => by simp at hff, fun _ => ⟨hciff, ?_, hgb, ?_, ?_⟩⟩
        · simpa [hemit] using range_append_range' s.out g hga
        · intro hgmem
          have h2 : (fun j => if j = i then true else s.checked j) g = true :=
            (hciff g).mpr hgmem
          rw [h2] at hgc
          simp at hgc
        · intro j hj
          rcases Nat.lt_or_ge j s.out with hlt | hge
          · exact List.mem_append.mpr (Or.inl (hbelow j hlt))
          · exact (hciff j).mp (hgmin j hge hj)
    · have hcout : (fun j => if j = i then true else s.checked j) s.out = false := by
        have h1 : s.checked s.out = false := by
          rcases hb : s.checked s.out with _ | _
          · rfl
          · exact absurd ((hiff s.out).mp hb) houtl
        have hoi : ¬s.out = i := fun hh => hio hh.symm
        simp [hoi, h1]
      rw [drain_not_checked hcout]
      refine ⟨fun hff => by simp at hff, fun _ => ⟨hciff, by simp [hemit], houtn, ?_, ?_⟩⟩
      · intro hmem
        rcases List.mem_append.mp hmem with hmem | hmem
        · exact houtl hmem
        · simp at hmem
          exact hio hmem.symm
      · intro j hj
        exact List.mem_append.mpr (Or.inl (hbelow j hj))

theorem seqRun_inv (n : Nat) :
    ∀ (events : List Nat) (l : List Nat) (s : SeqState), SeqInv n l s →
      SeqInv n (l ++ events) (List.foldl (seqStep n) s events) := by
  intro events
  induction events with
  | nil => intro l s h; simpa using h
  | cons e es ih =>
    intro l s h
    have h2 := ih (l ++ [e]) (seqStep n s e) (seqStep_inv e h)
    simpa using h2

/-- Whatever order worker completions arrive in — any permutation of
the index range — the sequencer emits exactly `0, 1, …, n-1`. -/
theorem seqRun_perm_emitted (n : Nat) (events : List Nat)
    (hperm : events.Perm (List.range n)) :
    (seqRun n events).emitted = List.range n := by
  rcases Nat.eq_zero_or_pos n with h0 | hn
  · subst h0
    have hev : events = [] := by simpa using hperm.eq_nil
    subst hev
    rfl
  · have hinv := seqRun_inv n events [] seqInit (seqInit_inv n hn)
    unfold seqRun
    cases hfin : (List.foldl (seqStep n) seqInit events).finished with
    | false =>
      obtain ⟨hiff, hemit, houtn, houtl, hbelow⟩ := hinv.2 hfin
      exfalso
      apply houtl
      have hmem : (List.foldl (seqStep n) seqInit events).out ∈ List.range n :=
        List.mem_range.mpr houtn
      simpa using hperm.mem_iff.mpr hmem
    | true =>
      exact (hinv.1 hfin).1

/-- C2: `VerifyHeaders` on a batch of `n` headers delivers one result
per input position, in input order, for every order in which the
parallel workers complete (every permutation of completion signals),
including `n = 0` (no results) and `n = 1`. -/
theorem c2_output_in_input_order (n : Nat) (errs : Nat → Option VErr)
    (events : List Nat) (hperm : events.Perm (List.range n)) :
    VerifyHeadersOutput n errs events = (List.range n).map errs := by
  unfold VerifyHeadersOutput
  by_cases hn : n = 0
  · subst hn
    simp
  · rw [if_neg hn, seqRun_perm_emitted n events hperm]

/-- C2 witness: a two-element batch whose completions arrive in reverse
order still yields the results in input order. -/
theorem c2_output_in_input_order_witness :
    ([1, 0] : List Nat).Perm (List.range 2) ∧
      VerifyHeadersOutput 2 (fun i => if i = 1 then some VErr.invalidGasLimit else none)
          [1, 0] =
        (List.range 2).map (fun i => if i = 1 then some VErr.invalidGasLimit else none) :=
  ⟨by decide,
   c2_output_in_input_order 2 (fun i => if i = 1 then some VErr.invalidGasLimit else none)
     [1, 0] (by decide)⟩

/-!
## C3: a concrete batch with a gas-limit-delta failure in the middle
-/

/-- Hash model for the C3 batch: headers are distinguished by number. -/
def hashC3 : Header → Nat := fun h => h.number + 100

/-- Chain observer for the C3 batch: it knows only the parent of the
batch head (`pC1`, whose hash under `hashC3` is 100). -/
def chainC3 : ChainReader := fun hash num =>
  if hash = 100 ∧ num = 0 then some pC1 else none

/-- Batch position 0: a fully valid child of `pC1`. -/
def h0C3 : Header := ⟨100, 1, 1000, 100000, 50, [], 1, 0⟩

/-- Batch position 1: child of `h0C3` whose gas limit jumps from 100000
to 200000, violating the delta bound (100000 ≥ 100000/1024 = 97). -/
def h1C3 : Header := ⟨101, 2, 1100, 200000, 0, [], 1, 0⟩

/-- Batch position 2: well-formed child of `h1C3`. -/
def h2C3 : Header := ⟨102, 3, 1200, 200000, 0, [], 1, 0⟩

/-- The per-position worker results of the C3 batch. -/
def errsC3 : Nat → Option VErr := fun i =>
  verifyHeaderWorker psStd engOK nowStd chainC3 hashC3
    [h0C3, h1C3, h2C3] [true, true, true] i

/-- C3: for the batch `[h0, h1, h2]` in which `h1` fails the
gas-limit-delta check (and `h0` is valid with a known parent),
`VerifyHeaders` emits exactly `[ok, HeaderRuleViolation, ok]` in that
order — `none` is "ok", `invalidGasLimit` is the gas-limit
`HeaderRuleViolation`, and position 2 realizes the "ok" arm of the
claim's "ok-or-UnknownAncestor" (its parent is resolved from the
preceding batch entry) — for *every* order in which the workers
complete, in particular when worker 2 finishes before worker 1. -/
theorem c3_batch_result_order (events : List Nat)
    (hperm : events.Perm (List.range 3)) :
    VerifyHeadersOutput 3 errsC3 events =
      [none, some VErr.invalidGasLimit, none] := by
  unfold VerifyHeadersOutput
  rw [if_neg (by decide), seqRun_perm_emitted 3 events hperm]
  decide

/-- C3 witness: completions arriving in the order 2, 0, 1 (worker 2
first) still produce the input-order results. -/
theorem c3_batch_result_order_witness :
    ([2, 0, 1] : List Nat).Perm (List.range 3) ∧
      VerifyHeadersOutput 3 errsC3 [2, 0, 1] =
        [none, some VErr.invalidGasLimit, none] :=
  ⟨by decide, c3_batch_result_order [2, 0, 1] (by decide)⟩

/-!
## C7: cancellation — workers can fail to exit

With a batch longer than the worker count, a schedule exists in which
one worker posts several results into the buffered `done` channel (the
select in the sequencer may keep choosing the `inputs` branch while
`done` is non-empty), filling its `workers`-sized buffer; the two
workers then both block in `done <- index`, the caller raises abort, the
sequencer returns without draining `done`, and both workers are blocked
forever: `close(inputs)` never reaches them because they never get back
to the `range inputs` receive.  The states below walk that schedule for
`n = 4` headers and `workers = 2` (`GOMAXPROCS = 2`). -/

def vhP : VHParams := ⟨4, 2⟩

def vhS0 : VHState := vhInit vhP

def vhS1 : VHState := { vhS0 with ws := [.sending 0, .waiting], inCnt := 1 }

def vhS2 : VHState := { vhS1 with ws := [.sending 0, .sending 1], inCnt := 2 }

def vhS3 : VHState := { vhS2 with ws := [.waiting, .sending 1], queue := [0] }

def vhS4 : VHState := { vhS3 with ws := [.sending 2, .sending 1], inCnt := 3 }

def vhS5 : VHState := { vhS4 with ws := [.waiting, .sending 1], queue := [0, 2] }

def vhS6 : VHState :=
  { vhS5 with ws := [.sending 3, .sending 1], inCnt := 4, inputsNil := true }

def vhS7 : VHState := { vhS6 with aborted := true }

/-- The stuck configuration: abort has been taken, the sequencer has
returned, the `done` buffer is full (`[0, 2]`), and both workers are
blocked sending (`done <- 3` and `done <- 1`). -/
def vhStuck : VHState := { vhS7 with seqReturned := true, inputsClosed := true }

/-- C7: the claim's "every worker is able to exit even though the
sequencing step has stopped consuming" fails on the code.  For a batch
of 4 headers with 2 workers there is a reachable configuration, after
the abort signal, that has no successor at all (the run is stuck) and in
which neither worker has exited — both are blocked forever on the full
`done` buffer.  (Consistently with the rest of the claim, no results
were emitted, a prefix of the input-order sequence.) -/
theorem c7_worker_exit_fails :
    VHReach vhP vhS0 vhStuck ∧
      vhNexts vhP vhStuck = [] ∧
      vhStuck.aborted = true ∧
      vhStuck.seqReturned = true ∧
      vhStuck.emitted = [] ∧
      (∀ w ∈ vhStuck.ws, w ≠ WState.exited) := by
  refine ⟨?_, by decide, by decide, by decide, by decide, by decide⟩
  have h01 : VHStep vhP vhS0 vhS1 := by decide
  have h12 : VHStep vhP vhS1 vhS2 := by decide
  have h23 : VHStep vhP vhS2 vhS3 := by decide
  have h34 : VHStep vhP vhS3 vhS4 := by decide
  have h45 : VHStep vhP vhS4 vhS5 := by decide
  have h56 : VHStep vhP vhS5 vhS6 := by decide
  have h67 : VHStep vhP vhS6 vhS7 := by decide
  have h78 : VHStep vhP vhS7 vhStuck := by decide
  exact .head h01 (.head h12 (.head h23 (.head h34 (.head h45
    (.head h56 (.head h67 (.head h78 .refl)))))))

end Goola
